import Mathlib

/-!
Shallow embedding of the `backtest` repository's core:
portfolio/order execution (`backtest/portfolio.py`), the backtest engine
(`backtest/engine.py`) and the statistical testing layer
(`backtest/statistical_testing.py`).  Python floats are modelled by `ℚ`
(exact arithmetic) in the portfolio/engine layer and by `ℝ` in the
statistics layer (where square roots appear); Python dicts keyed by ticker
are modelled by association lists with dict semantics (first binding wins,
assignment replaces in place, deletion removes the key).
-/

namespace Backtest

/-- Python dict lookup `d.get(k)`: first binding for the key, if any. -/
def alGet {α : Type} : List (String × α) → String → Option α
  | [], _ => none
  | (k, v) :: rest, t => if k = t then some v else alGet rest t

/-- Python dict assignment `d[k] = v`: replace the binding in place, or append. -/
def alSet {α : Type} : List (String × α) → String → α → List (String × α)
  | [], k, v => [(k, v)]
  | (k', v') :: rest, k, v =>
      if k' = k then (k', v) :: rest else (k', v') :: alSet rest k v

/-- Python dict deletion `del d[k]`: drop the binding for the key
(dict keys are unique, so dropping every binding agrees on reachable states). -/
def alDel {α : Type} (m : List (String × α)) (k : String) : List (String × α) :=
  m.filter (fun kv => kv.1 ≠ k)

/-- Order side, `Literal["buy", "sell"]` in `backtest/order.py`. -/
inductive Side : Type
  | buy
  | sell
deriving DecidableEq, Inhabited

/-- `Order` dataclass from `backtest/order.py`; `price = none` is a market order.
Construction validates `quantity > 0` (and `price > 0` when present); theorems
carry those as hypotheses. -/
structure Order where
  side : Side
  ticker : String
  quantity : ℤ
  price : Option ℚ := none
deriving DecidableEq, Inhabited

/-- `Position` dataclass from `backtest/order.py`: signed quantity and average cost. -/
structure Position where
  ticker : String
  quantity : ℤ
  avg_cost : ℚ
deriving DecidableEq, Inhabited

/-- `Portfolio` from `backtest/portfolio.py`: cash plus a ticker-keyed map of positions. -/
structure Portfolio where
  cash : ℚ
  initial_cash : ℚ
  positions : List (String × Position)
deriving DecidableEq, Inhabited

/-- `Portfolio.__init__`: starts with the given cash and no positions
(the `initial_cash > 0` guard is a construction-time check, carried as a
hypothesis where a claim needs it). -/
def mkPortfolio (initial_cash : ℚ) : Portfolio :=
  { cash := initial_cash, initial_cash := initial_cash, positions := [] }

/-- `Portfolio._update_position` from `backtest/portfolio.py` lines 79-114. -/
def Portfolio.update_position (p : Portfolio) (ticker : String)
    (quantity_change : ℤ) (price : ℚ) : Portfolio :=
  match alGet p.positions ticker with
  | none =>
      { p with positions :=
          alSet p.positions ticker ⟨ticker, quantity_change, price⟩ }
  | some current_position =>
      let total_quantity := current_position.quantity + quantity_change
      if total_quantity = 0 then
        { p with positions := alDel p.positions ticker }
      else
        let new_avg_cost :=
          if (0 < current_position.quantity ∧ 0 < quantity_change) ∨
             (current_position.quantity < 0 ∧ quantity_change < 0) then
            ((current_position.quantity : ℚ) * current_position.avg_cost +
              (quantity_change : ℚ) * price) / (total_quantity : ℚ)
          else
            current_position.avg_cost
        { p with positions :=
            alSet p.positions ticker ⟨ticker, total_quantity, new_avg_cost⟩ }

/-- `Portfolio._execute_buy`: declined (no state change) when the trade value
exceeds cash, otherwise debit cash and update the position. -/
def Portfolio.execute_buy (p : Portfolio) (order : Order) (price : ℚ)
    (trade_value : ℚ) : Bool × Portfolio :=
  if trade_value > p.cash then
    (false, p)
  else
    (true, ({ p with cash := p.cash - trade_value }).update_position
              order.ticker order.quantity price)

/-- `Portfolio._execute_sell`: always succeeds (short selling allowed),
credit cash and update the position by the negated quantity. -/
def Portfolio.execute_sell (p : Portfolio) (order : Order) (price : ℚ)
    (trade_value : ℚ) : Bool × Portfolio :=
  (true, ({ p with cash := p.cash + trade_value }).update_position
            order.ticker (-order.quantity) price)

/-- The `ValueError` raised by `execute_order` on a non-positive price. -/
inductive PortfolioError : Type
  | invalidPrice
deriving DecidableEq, Inhabited

/-- `Portfolio.execute_order` from `backtest/portfolio.py` lines 31-50:
raises on `execution_price <= 0`, otherwise dispatches on the order side. -/
def Portfolio.execute_order (p : Portfolio) (order : Order)
    (execution_price : ℚ) : Except PortfolioError (Bool × Portfolio) :=
  if execution_price ≤ 0 then
    .error .invalidPrice
  else
    let trade_value := (order.quantity : ℚ) * execution_price
    if order.side = Side.buy then
      .ok (p.execute_buy order execution_price trade_value)
    else
      .ok (p.execute_sell order execution_price trade_value)

/-- `Portfolio.get_position`. -/
def Portfolio.get_position (p : Portfolio) (ticker : String) : Option Position :=
  alGet p.positions ticker

/-- Signed quantity held for a ticker, reading an absent entry as 0
(used to state "quantity increases by q" uniformly). -/
def Portfolio.posQty (p : Portfolio) (ticker : String) : ℤ :=
  match alGet p.positions ticker with
  | none => 0
  | some pos => pos.quantity

/-- `Portfolio.calculate_portfolio_value`: cash plus quantity × price over the
positions whose ticker appears in the price map (absent tickers are skipped). -/
def Portfolio.calculate_portfolio_value (p : Portfolio)
    (current_prices : List (String × ℚ)) : ℚ :=
  p.positions.foldl
    (fun total kv =>
      match alGet current_prices kv.1 with
      | some pr => total + (kv.2.quantity : ℚ) * pr
      | none => total)
    p.cash

/-- `Bar` dataclass from `backtest/data_loader.py` (timestamps abstracted to `ℤ`;
the engine never computes with them). -/
structure Bar where
  timestamp : ℤ
  open_ : ℚ
  high : ℚ
  low : ℚ
  close : ℚ
  volume : ℤ
  ticker : String
  timeframe : Option String := none
deriving DecidableEq, Inhabited

/-- `Results` dataclass from `backtest/engine.py`. -/
structure Results where
  initial_cash : ℚ
  final_cash : ℚ
  final_portfolio_value : ℚ
  total_orders : ℕ
  executed_orders : ℕ
  start_date : ℤ
  end_date : ℤ
deriving DecidableEq, Inhabited

/-- `Results.total_return` property. -/
def Results.total_return (r : Results) : ℚ :=
  (r.final_portfolio_value - r.initial_cash) / r.initial_cash

/-- A `Strategy` (`backtest/strategy.py`) as a state machine: `on_data` turns a
bar into orders (possibly updating internal state), `update_position` is the
callback the engine invokes after each successful fill. -/
structure Strategy (σ : Type) where
  on_data : σ → Bar → σ × List Order
  update_position : σ → Position → σ

/-- Errors an `Engine.run` can raise: the empty-data `ValueError`, or the
invalid-price `ValueError` propagating out of `Portfolio.execute_order`. -/
inductive EngineError : Type
  | emptyData
  | invalidPrice
deriving DecidableEq, Inhabited

/-- The inner order loop of `Engine.run` (lines 88-101): execute each order at
the bar's close, count successful executions, and push the updated (or flat)
position back to the strategy on success. -/
def processOrders {σ : Type} (strat : Strategy σ) (price : ℚ) :
    List Order → Portfolio → σ → ℕ → Except EngineError (Portfolio × σ × ℕ)
  | [], p, st, executed => .ok (p, st, executed)
  | o :: rest, p, st, executed =>
    match p.execute_order o price with
    | .error _ => .error .invalidPrice
    | .ok (success, p') =>
      if success then
        let st' :=
          match p'.get_position o.ticker with
          | some pos => strat.update_position st pos
          | none => strat.update_position st { ticker := o.ticker, quantity := 0, avg_cost := 0 }
        processOrders strat price rest p' st' (executed + 1)
      else
        processOrders strat price rest p' st executed

/-- The bar loop of `Engine.run` (lines 82-101): ask the strategy for orders,
tally them, and run the order loop at the bar's close price. -/
def runBars {σ : Type} (strat : Strategy σ) :
    List Bar → Portfolio → σ → ℕ → ℕ → Except EngineError (Portfolio × σ × ℕ × ℕ)
  | [], p, st, total, executed => .ok (p, st, total, executed)
  | bar :: rest, p, st, total, executed =>
    match strat.on_data st bar with
    | (st1, orders) =>
      match processOrders strat bar.close orders p st1 executed with
      | .error e => .error e
      | .ok (p', st', executed') =>
          runBars strat rest p' st' (total + orders.length) executed'

/-- `Engine._get_final_prices` (lines 117-126): scan the bars in reverse and
keep the first close seen per ticker. -/
def getFinalPricesAux : List Bar → List (String × ℚ) → List (String × ℚ)
  | [], acc => acc
  | bar :: rest, acc =>
    match alGet acc bar.ticker with
    | some _ => getFinalPricesAux rest acc
    | none => getFinalPricesAux rest (alSet acc bar.ticker bar.close)

/-- `Engine._get_final_prices` entry point. -/
def getFinalPrices (data : List Bar) : List (String × ℚ) :=
  getFinalPricesAux data.reverse []

/-- `Engine.run` from `backtest/engine.py` lines 60-115. -/
def Engine.run {σ : Type} (initial_cash : ℚ) (strat : Strategy σ) (s0 : σ)
    (data : List Bar) : Except EngineError Results :=
  if data.isEmpty then
    .error .emptyData
  else
    match runBars strat data (mkPortfolio initial_cash) s0 0 0 with
    | .error e => .error e
    | .ok (p, _, total_orders, executed_orders) =>
        .ok { initial_cash := initial_cash
              final_cash := p.cash
              final_portfolio_value := p.calculate_portfolio_value (getFinalPrices data)
              total_orders := total_orders
              executed_orders := executed_orders
              start_date := ((data.head?).getD default).timestamp
              end_date := ((data.getLast?).getD default).timestamp }

/-- Strip the (unused) explicit limit price off an order. -/
def eraseOrderPrice (o : Order) : Order :=
  { o with price := none }

/-- The same strategy with every emitted order's limit price stripped;
used to state that the engine never reads the order's price field. -/
def erasePrices {σ : Type} (strat : Strategy σ) : Strategy σ :=
  { on_data := fun st b =>
      let r := strat.on_data st b
      (r.1, r.2.map eraseOrderPrice)
    update_position := strat.update_position }

/-- `TransactionCostEngine.run` from `backtest/statistical_testing.py` lines
59-83: run the base engine, then subtract
`(initial_cash - final_cash) * transaction_cost_pct` from the final value. -/
def TransactionCostEngine.run {σ : Type} (initial_cash transaction_cost_pct : ℚ)
    (strat : Strategy σ) (s0 : σ) (data : List Bar) : Except EngineError Results :=
  if data.isEmpty then
    .error .emptyData
  else
    match Engine.run initial_cash strat s0 data with
    | .error e => .error e
    | .ok results =>
        let total_invested := initial_cash - results.final_cash
        let transaction_costs := total_invested * transaction_cost_pct
        .ok { results with
                final_portfolio_value := results.final_portfolio_value - transaction_costs }

/-- `StatResult` dataclass from `backtest/statistical_testing.py`
(`sharpe_ratio` is embedded as the field `sharpe`). -/
structure StatResult where
  ticker : String
  return_pct : ℝ
  sharpe : ℝ
  start_price : ℝ
  end_price : ℝ
  volume : ℤ
  market_cap_proxy : ℝ
  beat_benchmark : Bool
  transaction_costs : ℝ

/-- `StatTestSummary` dataclass from `backtest/statistical_testing.py`. -/
structure StatTestSummary where
  n_stocks : ℕ
  mean_return : ℝ
  std_return : ℝ
  win_rate : ℝ
  mean_sharpe : ℝ
  benchmark_return : ℝ
  t_statistic : ℝ
  p_value : ℝ
  is_significant : Bool
  confidence_interval : ℝ × ℝ

/-- `np.mean` over a list of reals (0 on the empty list, matching `0/0 = 0`). -/
noncomputable def listMean (l : List ℝ) : ℝ :=
  l.sum / (l.length : ℝ)

/-- `np.std(·, ddof=1)`: the sample standard deviation. -/
noncomputable def sampleStd (l : List ℝ) : ℝ :=
  Real.sqrt ((l.map (fun x => (x - listMean l) ^ 2)).sum / ((l.length : ℝ) - 1))

open Classical in
/-- `StatisticalTester._calculate_summary_stats` (lines 311-358), parametrized
by the Student-t distribution functions the code takes from scipy:
`tcdf df x` models `stats.t.cdf(x, df)` and `tppf df q` models
`stats.t.ppf(q, df)`. -/
noncomputable def calculate_summary_stats (tcdf : ℕ → ℝ → ℝ) (tppf : ℕ → ℝ → ℝ)
    (results : List StatResult) (benchmark_return : ℝ) : StatTestSummary :=
  if results.isEmpty then
    ⟨0, 0, 0, 0, 0, benchmark_return, 0, 1, false, (0, 0)⟩
  else
    let returns := results.map StatResult.return_pct
    let sharpes := results.map StatResult.sharpe
    let wins := results.map StatResult.beat_benchmark
    let mean_return := listMean returns
    let std_return := if 1 < returns.length then sampleStd returns else 0
    let win_rate := (wins.count true : ℝ) / (wins.length : ℝ)
    let mean_sharpe := listMean sharpes
    if 1 < returns.length ∧ 0 < std_return then
      let t_stat := (mean_return - benchmark_return) /
        (std_return / Real.sqrt (returns.length : ℝ))
      let p_value := 2 * (1 - tcdf (returns.length - 1) |t_stat|)
      let is_significant := decide (p_value < 0.05)
      let t_critical := tppf (returns.length - 1) 0.975
      let margin_error := t_critical * (std_return / Real.sqrt (returns.length : ℝ))
      ⟨results.length, mean_return, std_return, win_rate, mean_sharpe, benchmark_return,
        t_stat, p_value, is_significant, (mean_return - margin_error, mean_return + margin_error)⟩
    else
      ⟨results.length, mean_return, std_return, win_rate, mean_sharpe, benchmark_return,
        0, 1, false, (mean_return, mean_return)⟩

/-- `StatisticalTester._get_benchmark_return` (lines 233-254), applied to the
already-loaded bar lists of the start and end files: filter each file's bars to
the benchmark ticker; if either side is empty, return `0.0`, otherwise the
relative change between the first matching closes. -/
def get_benchmark_return (start_file_bars end_file_bars : List Bar)
    (benchmark_ticker : String) : ℚ :=
  let start_bars := start_file_bars.filter (fun b => b.ticker = benchmark_ticker)
  let end_bars := end_file_bars.filter (fun b => b.ticker = benchmark_ticker)
  match start_bars, end_bars with
  | [], _ => 0
  | _, [] => 0
  | s :: _, e :: _ => (e.close - s.close) / s.close

open Classical in
/-- `StatisticalTester._calculate_stat_result` (lines 278-309). -/
noncomputable def calculate_stat_result (ticker : String) (stock_data : List Bar)
    (backtest_results : Results) (benchmark_return : ℝ)
    (transaction_cost_pct : ℚ) : StatResult :=
  let start_price : ℚ := ((stock_data.head?).getD default).close
  let end_price : ℚ := ((stock_data.getLast?).getD default).close
  let stock_return : ℚ := backtest_results.total_return
  let total_invested : ℚ := backtest_results.initial_cash - backtest_results.final_cash
  let transaction_costs : ℚ := total_invested * transaction_cost_pct
  let volume : ℤ := ((stock_data.head?).getD default).volume
  { ticker := ticker
    return_pct := (stock_return : ℝ)
    sharpe := if stock_return ≠ 0 then (stock_return : ℝ) else 0
    start_price := (start_price : ℝ)
    end_price := (end_price : ℝ)
    volume := volume
    market_cap_proxy := (start_price : ℝ) * (volume : ℝ)
    beat_benchmark := decide ((stock_return : ℝ) > benchmark_return)
    transaction_costs := (transaction_costs : ℝ) }

/-!
A small Python object model, needed only for `Portfolio.get_positions`
(`return self._positions.copy()`): `dict.copy()` allocates a fresh dict object
holding the same references to the (mutable) `Position` dataclass objects.
Position objects live in `pos_heap`, dict objects in `dict_heap`; a dict object
is an association list from ticker to the address of a Position object.
-/

/-- Heap state: `Position` objects and dict objects, addressed by index. -/
structure PyState where
  pos_heap : List Position
  dict_heap : List (List (String × ℕ))
deriving DecidableEq, Inhabited

/-- A portfolio whose `_positions` dict is a reference into the heap. -/
structure PyPortfolio where
  cash : ℚ
  positions_ref : ℕ
deriving DecidableEq, Inhabited

/-- Dereference a dict object. -/
def PyState.dictAt (s : PyState) (r : ℕ) : List (String × ℕ) :=
  s.dict_heap.getD r []

/-- Dereference a `Position` object. -/
def PyState.posAt (s : PyState) (r : ℕ) : Position :=
  s.pos_heap.getD r default

/-- `Portfolio.get_positions` (line 122): `self._positions.copy()` — allocate a
fresh dict object with the same entries (shallow copy: the `Position` objects
themselves are shared); returns the new state and the snapshot's address. -/
def pyGetPositions (s : PyState) (p : PyPortfolio) : PyState × ℕ :=
  ({ s with dict_heap := s.dict_heap ++ [s.dictAt p.positions_ref] },
   s.dict_heap.length)

/-- `Portfolio.get_position` (line 118): look the ticker up in the portfolio's
own dict and dereference the `Position` object. -/
def pyGetPosition (s : PyState) (p : PyPortfolio) (ticker : String) : Option Position :=
  (alGet (s.dictAt p.positions_ref) ticker).map s.posAt

/-- Caller-side in-place mutation of a `Position` object reached through a
snapshot, e.g. `snapshot[t].quantity = q` (`Position` is a plain dataclass). -/
def pySetQuantity (s : PyState) (r : ℕ) (q : ℤ) : PyState :=
  { s with pos_heap := s.pos_heap.set r { s.posAt r with quantity := q } }

/-- Caller-side entry-level mutation of a dict object, e.g. `snapshot.pop(t)`. -/
def pyDictPop (s : PyState) (r : ℕ) (ticker : String) : PyState :=
  { s with dict_heap := s.dict_heap.set r (alDel (s.dictAt r) ticker) }

/-- The ticker-to-Position value content of a dict object (what "value-equal
snapshots" compares). -/
def PyState.dictValues (s : PyState) (r : ℕ) : List (String × Position) :=
  (s.dictAt r).map (fun kv => (kv.1, s.posAt kv.2))

/-- A strategy that never orders (used to evaluate concrete engine runs). -/
def doNothingStrategy : Strategy Unit :=
  { on_data := fun _ _ => ((), [])
    update_position := fun s _ => s }

/-- A strategy that sells 2 shares of the incoming ticker on the first bar it
sees and is silent afterwards (used to evaluate a net-short concrete run). -/
def sellOnceStrategy : Strategy Bool :=
  { on_data := fun fired bar =>
      if fired then (true, []) else (true, [⟨Side.sell, bar.ticker, 2, none⟩])
    update_position := fun s _ => s }

/-- A concrete valid bar for witnesses. -/
def sampleBar : Bar :=
  { timestamp := 5, open_ := 10, high := 12, low := 9, close := 11,
    volume := 100, ticker := "A" }

theorem alGet_alSet_self {α : Type} (m : List (String × α)) (k : String) (v : α) :
    alGet (alSet m k v) k = some v := by
  induction m with
  | nil => simp [alSet, alGet]
  | cons kv rest ih =>
    obtain ⟨k', v'⟩ := kv
    by_cases h : k' = k
    · simp [alSet, alGet, h]
    · simp [alSet, alGet, h, ih]

theorem alGet_alDel_self {α : Type} (m : List (String × α)) (k : String) :
    alGet (alDel m k) k = none := by
  induction m with
  | nil => rfl
  | cons kv rest ih =>
    obtain ⟨k', v'⟩ := kv
    by_cases h : k' = k
    · simpa [alDel, List.filter_cons, h] using ih
    · simpa [alDel, alGet, List.filter_cons, h] using ih

theorem update_position_cash (p : Portfolio) (t : String) (d : ℤ) (price : ℚ) :
    (p.update_position t d price).cash = p.cash := by
  unfold Portfolio.update_position
  cases alGet p.positions t with
  | none => rfl
  | some cur =>
    by_cases hz : cur.quantity + d = 0 <;> simp [hz]

theorem posQty_update (p : Portfolio) (t : String) (d : ℤ) (price : ℚ) :
    (p.update_position t d price).posQty t = p.posQty t + d := by
  unfold Portfolio.update_position Portfolio.posQty
  cases h : alGet p.positions t with
  | none => simp [h, alGet_alSet_self]
  | some cur =>
    by_cases hz : cur.quantity + d = 0
    · simp [h, hz, alGet_alDel_self]
    · simp [h, hz, alGet_alSet_self]

/-- C1: average-cost update rule of `Portfolio._update_position`: a fresh
position takes the fill price as its average cost; a same-sign change takes
the quantity-weighted average; an opposite-sign change keeps the prior average
cost (even across a sign flip); and a resulting total quantity of 0 removes
the ticker's entry from the position map. -/
theorem avg_cost_update_rule (p : Portfolio) (t : String) (d : ℤ) (price : ℚ)
    (hd : d ≠ 0) (hp : 0 < price) :
    (alGet p.positions t = none →
      alGet (p.update_position t d price).positions t = some ⟨t, d, price⟩) ∧
    (∀ cur : Position, alGet p.positions t = some cur →
      ((0 < cur.quantity ∧ 0 < d) ∨ (cur.quantity < 0 ∧ d < 0)) →
      cur.quantity + d ≠ 0 →
      alGet (p.update_position t d price).positions t =
        some ⟨t, cur.quantity + d,
          ((cur.quantity : ℚ) * cur.avg_cost + (d : ℚ) * price) /
            (((cur.quantity + d : ℤ)) : ℚ)⟩) ∧
    (∀ cur : Position, alGet p.positions t = some cur →
      ((0 < cur.quantity ∧ d < 0) ∨ (cur.quantity < 0 ∧ 0 < d)) →
      cur.quantity + d ≠ 0 →
      alGet (p.update_position t d price).positions t =
        some ⟨t, cur.quantity + d, cur.avg_cost⟩) ∧
    (∀ cur : Position, alGet p.positions t = some cur → cur.quantity + d = 0 →
      alGet (p.update_position t d price).positions t = none) := by
  refine ⟨?_, ?_, ?_, ?_⟩
  · intro h
    simp [Portfolio.update_position, h, alGet_alSet_self]
  · intro cur hcur hsame hnz
    simp [Portfolio.update_position, hcur, hnz, hsame, alGet_alSet_self]
  · intro cur hcur hopp hnz
    have hnot : ¬ ((0 < cur.quantity ∧ 0 < d) ∨ (cur.quantity < 0 ∧ d < 0)) := by
      rcases hopp with ⟨h1, h2⟩ | ⟨h1, h2⟩ <;> omega
    simp [Portfolio.update_position, hcur, hnz, hnot, alGet_alSet_self]
  · intro cur hcur hz
    simp [Portfolio.update_position, hcur, hz, alGet_alDel_self]

/-- C1 witness: adding 10 shares at 7 to a long position of 10 at average
cost 5 yields 20 shares at average cost 6. -/
theorem avg_cost_update_rule_witness :
    alGet ((⟨1000, 1000, [("A", ⟨"A", 10, 5⟩)]⟩ : Portfolio).update_position
      "A" 10 7).positions "A" = some ⟨"A", 20, 6⟩ := by
  have h := (avg_cost_update_rule ⟨1000, 1000, [("A", ⟨"A", 10, 5⟩)]⟩ "A" 10 7
    (by decide) (by norm_num)).2.1 ⟨"A", 10, 5⟩ (by decide)
    (Or.inl ⟨by decide, by decide⟩) (by decide)
  rw [h]
  norm_num

/-- C2: buy execution contract of `Portfolio._execute_buy`: at a positive
price, a buy whose trade value exceeds cash is declined with no state change;
otherwise it succeeds, cash drops by exactly `quantity × price`, and the
instrument's signed quantity rises by exactly `quantity`. -/
theorem buy_execution_contract (p : Portfolio) (o : Order) (price : ℚ)
    (hside : o.side = Side.buy) (hq : 0 < o.quantity) (hp : 0 < price) :
    ((o.quantity : ℚ) * price > p.cash →
      p.execute_order o price = .ok (false, p)) ∧
    ((o.quantity : ℚ) * price ≤ p.cash →
      ∃ p' : Portfolio, p.execute_order o price = .ok (true, p') ∧
        p'.cash = p.cash - (o.quantity : ℚ) * price ∧
        p'.posQty o.ticker = p.posQty o.ticker + o.quantity) := by
  have hnp : ¬ price ≤ 0 := not_le.mpr hp
  constructor
  · intro hgt
    simp [Portfolio.execute_order, hnp, hside, Portfolio.execute_buy, hgt]
  · intro hle
    refine ⟨({ p with cash := p.cash - (o.quantity : ℚ) * price }).update_position
      o.ticker o.quantity price, ?_, ?_, ?_⟩
    · simp [Portfolio.execute_order, hnp, hside, Portfolio.execute_buy, not_lt.mpr hle]
    · rw [update_position_cash]
    · have h := posQty_update ({ p with cash := p.cash - (o.quantity : ℚ) * price })
        o.ticker o.quantity price
      simpa [Portfolio.posQty] using h

/-- C2 witness: buying 5 shares at price 3 with 100 cash succeeds, leaving
85 cash and a 5-share position; an 11-share buy at 10 is declined. -/
theorem buy_execution_contract_witness :
    ((⟨100, 100, []⟩ : Portfolio).execute_order ⟨Side.buy, "A", 11, none⟩ 10 =
      .ok (false, ⟨100, 100, []⟩)) ∧
    ∃ p' : Portfolio,
      (⟨100, 100, []⟩ : Portfolio).execute_order ⟨Side.buy, "A", 5, none⟩ 3 =
        .ok (true, p') ∧
      p'.cash = 100 - (5 : ℚ) * 3 ∧
      p'.posQty "A" = 0 + 5 := by
  constructor
  · exact (buy_execution_contract ⟨100, 100, []⟩ ⟨Side.buy, "A", 11, none⟩ 10
      rfl (by decide) (by norm_num)).1 (by norm_num)
  · have h := (buy_execution_contract ⟨100, 100, []⟩ ⟨Side.buy, "A", 5, none⟩ 3
      rfl (by decide) (by norm_num)).2 (by norm_num)
    simpa [Portfolio.posQty] using h

/-- C3: sell execution contract of `Portfolio._execute_sell`: at a positive
price a sell always succeeds (shorting allowed, no margin check), cash rises
by exactly `quantity × price`, and the instrument's signed quantity drops by
exactly `quantity`. -/
theorem sell_execution_contract (p : Portfolio) (o : Order) (price : ℚ)
    (hside : o.side = Side.sell) (hq : 0 < o.quantity) (hp : 0 < price) :
    ∃ p' : Portfolio, p.execute_order o price = .ok (true, p') ∧
      p'.cash = p.cash + (o.quantity : ℚ) * price ∧
      p'.posQty o.ticker = p.posQty o.ticker - o.quantity := by
  have hnp : ¬ price ≤ 0 := not_le.mpr hp
  have hnb : ¬ o.side = Side.buy := by rw [hside]; intro h; cases h
  refine ⟨({ p with cash := p.cash + (o.quantity : ℚ) * price }).update_position
    o.ticker (-o.quantity) price, ?_, ?_, ?_⟩
  · simp [Portfolio.execute_order, hnp, hnb, Portfolio.execute_sell]
  · rw [update_position_cash]
  · have h := posQty_update ({ p with cash := p.cash + (o.quantity : ℚ) * price })
      o.ticker (-o.quantity) price
    simp [Portfolio.posQty] at h ⊢
    omega

/-- C3 witness: selling 4 shares at price 25 from an empty portfolio succeeds,
credits 100 cash and leaves a short position of -4. -/
theorem sell_execution_contract_witness :
    ∃ p' : Portfolio,
      (⟨50, 50, []⟩ : Portfolio).execute_order ⟨Side.sell, "A", 4, none⟩ 25 =
        .ok (true, p') ∧
      p'.cash = 50 + (4 : ℚ) * 25 ∧
      p'.posQty "A" = 0 - 4 := by
  have h := sell_execution_contract ⟨50, 50, []⟩ ⟨Side.sell, "A", 4, none⟩ 25
    rfl (by decide) (by norm_num)
  simpa [Portfolio.posQty] using h

/-- C7: `Portfolio.execute_order` raises the invalid-price error exactly when
the execution price is non-positive (leaving the portfolio untouched, as the
check precedes any state change), and for a positive price it returns a
boolean outcome, never that error. -/
theorem price_validation_contract (p : Portfolio) (o : Order) (c : ℚ) :
    (p.execute_order o c = .error .invalidPrice ↔ c ≤ 0) ∧
    (0 < c → ∃ res : Bool × Portfolio, p.execute_order o c = .ok res) := by
  constructor
  · constructor
    · intro h
      by_contra hc
      push_neg at hc
      by_cases hb : o.side = Side.buy <;>
        simp [Portfolio.execute_order, not_le.mpr hc, hb] at h
    · intro h
      simp [Portfolio.execute_order, h]
  · intro h
    by_cases hb : o.side = Side.buy
    · exact ⟨p.execute_buy o c ((o.quantity : ℚ) * c),
        by simp [Portfolio.execute_order, not_le.mpr h, hb]⟩
    · exact ⟨p.execute_sell o c ((o.quantity : ℚ) * c),
        by simp [Portfolio.execute_order, not_le.mpr h, hb]⟩

/-- C7 witness: at price -1 the order raises the invalid-price error; at
price 2 it returns a boolean outcome. -/
theorem price_validation_contract_witness :
    ((⟨10, 10, []⟩ : Portfolio).execute_order ⟨Side.buy, "A", 1, none⟩ (-1) =
      .error .invalidPrice) ∧
    ∃ res : Bool × Portfolio,
      (⟨10, 10, []⟩ : Portfolio).execute_order ⟨Side.buy, "A", 1, none⟩ 2 = .ok res := by
  constructor
  · exact (price_validation_contract ⟨10, 10, []⟩ ⟨Side.buy, "A", 1, none⟩ (-1)).1.mpr
      (by norm_num)
  · exact (price_validation_contract ⟨10, 10, []⟩ ⟨Side.buy, "A", 1, none⟩ 2).2
      (by norm_num)

theorem alGet_alSet_ne {α : Type} (m : List (String × α)) (k k' : String) (v : α)
    (h : k ≠ k') : alGet (alSet m k v) k' = alGet m k' := by
  induction m with
  | nil => simp [alSet, alGet, h]
  | cons kv rest ih =>
    obtain ⟨k0, v0⟩ := kv
    by_cases h0 : k0 = k
    · subst h0
      simp [alSet, alGet, h]
    · simp [alSet, alGet, h0, ih]

theorem processOrders_error {σ : Type} (strat : Strategy σ) (price : ℚ) :
    ∀ (orders : List Order) (p : Portfolio) (st : σ) (ex : ℕ) (e : EngineError),
      processOrders strat price orders p st ex = .error e → e = .invalidPrice := by
  intro orders
  induction orders with
  | nil =>
    intro p st ex e h
    exact absurd h (by simp [processOrders])
  | cons o rest ih =>
    intro p st ex e h
    rw [processOrders] at h
    cases hx : p.execute_order o price with
    | error pe =>
      rw [hx] at h
      injection h with h'
      exact h'.symm
    | ok r =>
      rw [hx] at h
      obtain ⟨success, p'⟩ := r
      cases success
      · exact ih p' st ex e (by simpa using h)
      · exact ih p' _ (ex + 1) e (by simpa using h)

theorem runBars_error {σ : Type} (strat : Strategy σ) :
    ∀ (data : List Bar) (p : Portfolio) (st : σ) (tot ex : ℕ) (e : EngineError),
      runBars strat data p st tot ex = .error e → e = .invalidPrice := by
  intro data
  induction data with
  | nil =>
    intro p st tot ex e h
    exact absurd h (by simp [runBars])
  | cons bar rest ih =>
    intro p st tot ex e h
    rcases hod : strat.on_data st bar with ⟨st1, orders⟩
    simp only [runBars, hod] at h
    cases hx : processOrders strat bar.close orders p st1 ex with
    | error e' =>
      rw [hx] at h
      injection h with h'
      exact h' ▸ processOrders_error strat bar.close orders p st1 ex e' hx
    | ok r =>
      rw [hx] at h
      obtain ⟨p', st', ex'⟩ := r
      exact ih p' st' _ ex' e h

/-- C8: `Engine.run` raises the empty-data error on an empty bar sequence,
and never raises that error on a non-empty sequence (its only other failure
is the invalid-price error propagating from order execution). -/
theorem empty_input_error {σ : Type} (ic : ℚ) (strat : Strategy σ) (s0 : σ)
    (data : List Bar) :
    Engine.run ic strat s0 ([] : List Bar) = .error .emptyData ∧
    (data ≠ [] → Engine.run ic strat s0 data ≠ .error .emptyData) := by
  constructor
  · rfl
  · intro hne hcontra
    have hne' : data.isEmpty = false := by
      cases data with
      | nil => exact absurd rfl hne
      | cons b rest => rfl
    simp only [Engine.run, hne', Bool.false_eq_true, if_false] at hcontra
    cases hx : runBars strat data (mkPortfolio ic) s0 0 0 with
    | error e =>
      rw [hx] at hcontra
      injection hcontra with h'
      have := runBars_error strat data (mkPortfolio ic) s0 0 0 e hx
      rw [this] at h'
      cases h'
    | ok r =>
      obtain ⟨p, st, tot, ex⟩ := r
      rw [hx] at hcontra
      cases hcontra

/-- C8 witness: the empty run errors with the empty-data error; a one-bar run
does not. -/
theorem empty_input_error_witness :
    Engine.run 100 doNothingStrategy () ([] : List Bar) = .error .emptyData ∧
    Engine.run 100 doNothingStrategy () [sampleBar] ≠ .error .emptyData := by
  have h := empty_input_error 100 doNothingStrategy () [sampleBar]
  exact ⟨h.1, h.2 (List.cons_ne_nil _ _)⟩

theorem execute_order_erase (p : Portfolio) (o : Order) (c : ℚ) :
    p.execute_order (eraseOrderPrice o) c = p.execute_order o c := by
  cases o
  rfl

theorem processOrders_erase {σ : Type} (strat : Strategy σ) (price : ℚ) :
    ∀ (orders : List Order) (p : Portfolio) (st : σ) (ex : ℕ),
      processOrders (erasePrices strat) price (orders.map eraseOrderPrice) p st ex =
        processOrders strat price orders p st ex := by
  intro orders
  induction orders with
  | nil => intro p st ex; rfl
  | cons o rest ih =>
    intro p st ex
    rw [List.map_cons, processOrders, processOrders, execute_order_erase]
    cases hx : p.execute_order o price with
    | error pe => rfl
    | ok r =>
      obtain ⟨success, p'⟩ := r
      cases success
      · simpa using ih p' st ex
      · have ht : (eraseOrderPrice o).ticker = o.ticker := by cases o; rfl
        simp only [if_pos rfl, ht]
        cases p'.get_position o.ticker <;> exact ih p' _ (ex + 1)

theorem runBars_erase {σ : Type} (strat : Strategy σ) :
    ∀ (data : List Bar) (p : Portfolio) (st : σ) (tot ex : ℕ),
      runBars (erasePrices strat) data p st tot ex = runBars strat data p st tot ex := by
  intro data
  induction data with
  | nil => intro p st tot ex; rfl
  | cons bar rest ih =>
    intro p st tot ex
    rcases hod : strat.on_data st bar with ⟨st1, orders⟩
    have hod' : (erasePrices strat).on_data st bar = (st1, orders.map eraseOrderPrice) := by
      show (let r := strat.on_data st bar; (r.1, r.2.map eraseOrderPrice)) = _
      rw [hod]
    simp only [runBars, hod, hod']
    rw [processOrders_erase, List.length_map]
    cases processOrders strat bar.close orders p st1 ex with
    | error e => rfl
    | ok r =>
      obtain ⟨p', st', ex'⟩ := r
      exact ih p' st' _ ex'

theorem run_erase {σ : Type} (ic : ℚ) (strat : Strategy σ) (s0 : σ) (data : List Bar) :
    Engine.run ic (erasePrices strat) s0 data = Engine.run ic strat s0 data := by
  rw [Engine.run, Engine.run, runBars_erase]

theorem alGet_getFinalPricesAux (t : String) :
    ∀ (l : List Bar) (acc : List (String × ℚ)),
      alGet (getFinalPricesAux l acc) t =
        match alGet acc t with
        | some v => some v
        | none => (l.find? (fun b => b.ticker = t)).map Bar.close := by
  intro l
  induction l with
  | nil =>
    intro acc
    simp only [getFinalPricesAux]
    cases h : alGet acc t <;> simp [h]
  | cons bar rest ih =>
    intro acc
    rw [getFinalPricesAux]
    cases hb : alGet acc bar.ticker with
    | some v0 =>
      rw [ih acc]
      by_cases ht : bar.ticker = t
      · subst ht
        rw [hb]
      · rw [List.find?_cons_of_neg _ (by simp [ht])]
    | none =>
      rw [ih (alSet acc bar.ticker bar.close)]
      by_cases ht : bar.ticker = t
      · subst ht
        rw [alGet_alSet_self, hb, List.find?_cons_of_pos _ (by simp)]
        rfl
      · rw [alGet_alSet_ne acc bar.ticker t bar.close ht,
            List.find?_cons_of_neg _ (by simp [ht])]

theorem alGet_getFinalPrices (data : List Bar) (t : String) :
    alGet (getFinalPrices data) t =
      (data.reverse.find? (fun b => b.ticker = t)).map Bar.close := by
  rw [getFinalPrices, alGet_getFinalPricesAux]
  rfl

/-- C4: `Engine.run` postcondition: the run never reads an order's limit price
(erasing every emitted order's price field gives the identical run, so each
fill is at the bar's close passed by the engine), a successful run's final
portfolio value is the final portfolio valued against the last-seen close per
ticker, and the result's start and end dates are the timestamps of the first
and last input bars as given. -/
theorem engine_run_postcondition {σ : Type} (ic : ℚ) (strat : Strategy σ) (s0 : σ)
    (data : List Bar) (hne : data ≠ []) :
    Engine.run ic (erasePrices strat) s0 data = Engine.run ic strat s0 data ∧
    (∀ r : Results, Engine.run ic strat s0 data = .ok r →
      r.start_date = (data.head hne).timestamp ∧
      r.end_date = (data.getLast hne).timestamp ∧
      ∃ (p : Portfolio) (st : σ) (tot ex : ℕ),
        runBars strat data (mkPortfolio ic) s0 0 0 = .ok (p, st, tot, ex) ∧
        r.final_portfolio_value = p.calculate_portfolio_value (getFinalPrices data)) ∧
    (∀ t : String, alGet (getFinalPrices data) t =
      (data.reverse.find? (fun b => b.ticker = t)).map Bar.close) := by
  refine ⟨run_erase ic strat s0 data, ?_, fun t => alGet_getFinalPrices data t⟩
  intro r hr
  have hne' : data.isEmpty = false := by
    cases data with
    | nil => exact absurd rfl hne
    | cons b rest => rfl
  simp only [Engine.run, hne', Bool.false_eq_true, if_false] at hr
  cases hx : runBars strat data (mkPortfolio ic) s0 0 0 with
  | error e => rw [hx] at hr; cases hr
  | ok res =>
    obtain ⟨p, st, tot, ex⟩ := res
    rw [hx] at hr
    injection hr with hr'
    subst hr'
    refine ⟨?_, ?_, p, st, tot, ex, rfl, rfl⟩
    · rw [List.head?_eq_head hne]
      rfl
    · rw [List.getLast?_eq_getLast data hne]
      rfl

/-- C4 witness: on a single-bar run of the do-nothing strategy, erasing limit
prices leaves the run unchanged and the start date is the bar's timestamp. -/
theorem engine_run_postcondition_witness :
    Engine.run 100 (erasePrices doNothingStrategy) () [sampleBar] =
      Engine.run 100 doNothingStrategy () [sampleBar] ∧
    (⟨100, 100, 100, 0, 0, 5, 5⟩ : Results).start_date =
      ([sampleBar].head (List.cons_ne_nil _ _)).timestamp := by
  have h := engine_run_postcondition 100 doNothingStrategy () [sampleBar]
    (List.cons_ne_nil _ _)
  exact ⟨h.1, (h.2.1 ⟨100, 100, 100, 0, 0, 5, 5⟩ rfl).1⟩

/-- C5: `TransactionCostEngine.run` returns the base `Engine.run` results with
only `final_portfolio_value` changed, reduced by
`(initial_cash - final_cash) * transaction_cost_pct`; with a positive cost
percentage, a net-short run (final cash above initial cash) makes the
deduction negative, increasing the adjusted value. -/
theorem transaction_cost_frame {σ : Type} (ic pct : ℚ) (strat : Strategy σ) (s0 : σ)
    (data : List Bar) (r : Results) (h : Engine.run ic strat s0 data = .ok r) :
    ∃ r' : Results, TransactionCostEngine.run ic pct strat s0 data = .ok r' ∧
      r'.final_portfolio_value = r.final_portfolio_value - (ic - r.final_cash) * pct ∧
      r'.initial_cash = r.initial_cash ∧
      r'.final_cash = r.final_cash ∧
      r'.total_orders = r.total_orders ∧
      r'.executed_orders = r.executed_orders ∧
      r'.start_date = r.start_date ∧
      r'.end_date = r.end_date ∧
      (ic < r.final_cash → 0 < pct →
        r.final_portfolio_value < r'.final_portfolio_value) := by
  have hne : data.isEmpty = false := by
    cases data with
    | nil => exact absurd h (by rw [Engine.run]; simp)
    | cons b rest => rfl
  refine ⟨{ r with final_portfolio_value :=
      r.final_portfolio_value - (ic - r.final_cash) * pct }, ?_, rfl, rfl, rfl, rfl,
      rfl, rfl, rfl, ?_⟩
  · rw [TransactionCostEngine.run, hne]
    simp only [Bool.false_eq_true, if_false]
    rw [h]
  · intro hshort hpct
    have hneg : (ic - r.final_cash) * pct < 0 :=
      mul_neg_of_neg_of_pos (by linarith) hpct
    simp only [Results.mk.injEq]
    linarith

/-- C5 witness: a net-short one-bar run (sell 2 at close 11 from 100 cash,
final cash 122) with 5% costs gets a negative deduction, so the adjusted value
exceeds the base value. -/
theorem transaction_cost_frame_witness :
    ∃ r' : Results,
      TransactionCostEngine.run 100 (1/20) sellOnceStrategy false [sampleBar] =
        .ok r' ∧
      r'.final_portfolio_value =
        (⟨100, 122, 100, 1, 1, 5, 5⟩ : Results).final_portfolio_value -
          ((100 : ℚ) - 122) * (1/20) ∧
      (⟨100, 122, 100, 1, 1, 5, 5⟩ : Results).final_portfolio_value <
        r'.final_portfolio_value := by
  have hrun : Engine.run 100 sellOnceStrategy false [sampleBar] =
      .ok ⟨100, 122, 100, 1, 1, 5, 5⟩ := by
    simp +decide [Engine.run, runBars, processOrders, sellOnceStrategy, sampleBar,
      Portfolio.execute_order, Portfolio.execute_sell, Portfolio.execute_buy,
      Portfolio.update_position, Portfolio.get_position, mkPortfolio, alGet, alSet,
      getFinalPrices, getFinalPricesAux, Portfolio.calculate_portfolio_value]
    norm_num
  obtain ⟨r', h1, h2, -, -, -, -, -, -, h9⟩ :=
    transaction_cost_frame 100 (1/20) sellOnceStrategy false [sampleBar]
      ⟨100, 122, 100, 1, 1, 5, 5⟩ hrun
  exact ⟨r', h1, h2, h9 (by norm_num) (by norm_num)⟩

/-- C6: degenerate-statistics guard of `_calculate_summary_stats`: with at
most one successful instrument or zero sample standard deviation, the summary
has `t = 0`, `p = 1`, `is_significant = false` and the confidence interval
collapses to `(mean_return, mean_return)`; otherwise
`t = (mean - benchmark)/(std/sqrt n)` with a two-tailed Student-t p-value on
`n - 1` degrees of freedom. -/
theorem degenerate_statistics (tcdf tppf : ℕ → ℝ → ℝ)
    (results : List StatResult) (benchmark_return : ℝ) :
    ((results.length ≤ 1 ∨ sampleStd (results.map StatResult.return_pct) = 0) →
      (calculate_summary_stats tcdf tppf results benchmark_return).t_statistic = 0 ∧
      (calculate_summary_stats tcdf tppf results benchmark_return).p_value = 1 ∧
      (calculate_summary_stats tcdf tppf results benchmark_return).is_significant = false ∧
      (calculate_summary_stats tcdf tppf results benchmark_return).confidence_interval =
        ((calculate_summary_stats tcdf tppf results benchmark_return).mean_return,
         (calculate_summary_stats tcdf tppf results benchmark_return).mean_return)) ∧
    (1 < results.length → sampleStd (results.map StatResult.return_pct) ≠ 0 →
      (calculate_summary_stats tcdf tppf results benchmark_return).t_statistic =
        (listMean (results.map StatResult.return_pct) - benchmark_return) /
          (sampleStd (results.map StatResult.return_pct) /
            Real.sqrt (results.length : ℝ)) ∧
      (calculate_summary_stats tcdf tppf results benchmark_return).p_value =
        2 * (1 - tcdf (results.length - 1)
          |(calculate_summary_stats tcdf tppf results benchmark_return).t_statistic|)) := by
  constructor
  · intro hdeg
    cases hres : results with
    | nil =>
      simp only [calculate_summary_stats, List.isEmpty_nil, if_true]
      exact ⟨trivial, trivial, trivial, trivial⟩
    | cons a as =>
      have hemp : (a :: as).isEmpty = false := rfl
      have hcond : ¬(1 < ((a :: as).map StatResult.return_pct).length ∧
          0 < (if 1 < ((a :: as).map StatResult.return_pct).length
               then sampleStd ((a :: as).map StatResult.return_pct) else 0)) := by
        rintro ⟨hl, hs⟩
        have hl' : 1 < (a :: as).length := by simpa using hl
        rw [hres] at hdeg
        rcases hdeg with h1 | h2
        · omega
        · rw [if_pos hl, h2] at hs
          exact lt_irrefl 0 hs
      simp only [calculate_summary_stats, hemp, Bool.false_eq_true, if_false,
        if_neg hcond]
      exact ⟨trivial, trivial, trivial, trivial⟩
  · intro hl hs
    have hemp : results.isEmpty = false := by
      cases results with
      | nil => simp at hl
      | cons a as => rfl
    have hstd : 0 < sampleStd (results.map StatResult.return_pct) :=
      lt_of_le_of_ne (Real.sqrt_nonneg _) (Ne.symm hs)
    have hlen : 1 < (results.map StatResult.return_pct).length := by simpa using hl
    have hcond : 1 < (results.map StatResult.return_pct).length ∧
        0 < (if 1 < (results.map StatResult.return_pct).length
             then sampleStd (results.map StatResult.return_pct) else 0) :=
      ⟨hlen, by rw [if_pos hlen]; exact hstd⟩
    have hstd_eq : (if 1 < (results.map StatResult.return_pct).length
        then sampleStd (results.map StatResult.return_pct) else 0) =
        sampleStd (results.map StatResult.return_pct) := if_pos hlen
    simp only [calculate_summary_stats, hemp, Bool.false_eq_true, if_false,
      if_pos hcond, hstd_eq]
    simp only [List.length_map]
    have hcond' : 1 < results.length ∧
        0 < sampleStd (results.map StatResult.return_pct) := ⟨hl, hstd⟩
    simp only [if_pos hcond']
    constructor <;> first | rfl | trivial

/-- C6 witness: a single-instrument sample hits the degenerate branch
(`t = 0`, `p = 1`), and a two-instrument sample with returns 0 and 1 hits the
t-statistic formula. -/
theorem degenerate_statistics_witness :
    (calculate_summary_stats (fun _ _ => 1/2) (fun _ _ => 2)
      [⟨"A", 1/2, 1/2, 1, 2, 3, 4, true, 0⟩] 0).t_statistic = 0 ∧
    (calculate_summary_stats (fun _ _ => 1/2) (fun _ _ => 2)
      [⟨"A", 1/2, 1/2, 1, 2, 3, 4, true, 0⟩] 0).p_value = 1 ∧
    (calculate_summary_stats (fun _ _ => 1/2) (fun _ _ => 2)
      [⟨"A", 0, 0, 1, 2, 3, 4, true, 0⟩, ⟨"B", 1, 1, 1, 2, 3, 4, true, 0⟩]
      0).t_statistic =
      (listMean [0, 1] - 0) / (sampleStd [0, 1] / Real.sqrt 2) := by
  have h1 := (degenerate_statistics (fun _ _ => 1/2) (fun _ _ => 2)
    [⟨"A", 1/2, 1/2, 1, 2, 3, 4, true, 0⟩] 0).1 (Or.inl (by simp))
  have hmap : ([(⟨"A", 0, 0, 1, 2, 3, 4, true, 0⟩ : StatResult),
      ⟨"B", 1, 1, 1, 2, 3, 4, true, 0⟩].map StatResult.return_pct) = [0, 1] := rfl
  have hval : sampleStd [(0 : ℝ), 1] = Real.sqrt (1/2) := by
    have : ([(0 : ℝ), 1].map (fun x => (x - listMean [0, 1]) ^ 2)).sum /
        (([(0 : ℝ), 1].length : ℝ) - 1) = 1/2 := by
      simp [listMean]
      norm_num
    rw [sampleStd, this]
  have hne : sampleStd [(0 : ℝ), 1] ≠ 0 := by
    rw [hval]
    exact (Real.sqrt_pos.mpr (by norm_num)).ne'
  have h2 := (degenerate_statistics (fun _ _ => 1/2) (fun _ _ => 2)
    [⟨"A", 0, 0, 1, 2, 3, 4, true, 0⟩, ⟨"B", 1, 1, 1, 2, 3, 4, true, 0⟩] 0).2
    (by norm_num) (by rw [hmap]; exact hne)
  refine ⟨h1.1, h1.2.1, ?_⟩
  rw [h2.1, hmap]
  norm_num

/-- C10: `_get_benchmark_return` silently yields a benchmark of 0 when the
benchmark ticker has no bar in the start-date file or none in the end-date
file; every `beat_benchmark` flag against a zero benchmark is just
`return > 0`, and the summary's `benchmark_return` field carries the zero
through to the aggregate t-test. -/
theorem missing_benchmark_defaults_zero (start_file_bars end_file_bars : List Bar)
    (tk : String)
    (h : start_file_bars.filter (fun b => b.ticker = tk) = [] ∨
         end_file_bars.filter (fun b => b.ticker = tk) = []) :
    get_benchmark_return start_file_bars end_file_bars tk = 0 ∧
    (∀ (ticker : String) (sd : List Bar) (r : Results) (cost : ℚ),
      ((calculate_stat_result ticker sd r 0 cost).beat_benchmark = true ↔
        (0 : ℝ) < ((r.total_return : ℚ) : ℝ))) ∧
    (∀ (tcdf tppf : ℕ → ℝ → ℝ) (results : List StatResult),
      (calculate_summary_stats tcdf tppf results 0).benchmark_return = 0) := by
  refine ⟨?_, ?_, ?_⟩
  · rcases h with h | h
    · simp [get_benchmark_return, h]
    · rw [get_benchmark_return]
      rw [h]
      cases start_file_bars.filter (fun b => b.ticker = tk) <;> rfl
  · intro ticker sd r cost
    simp [calculate_stat_result, decide_eq_true_eq]
  · intro tcdf tppf results
    by_cases hemp : results.isEmpty = true
    · simp only [calculate_summary_stats, if_pos hemp]
    · simp only [calculate_summary_stats, if_neg hemp]
      by_cases hcond : 1 < (results.map StatResult.return_pct).length ∧
          0 < (if 1 < (results.map StatResult.return_pct).length
               then sampleStd (results.map StatResult.return_pct) else 0)
      · simp only [if_pos hcond]
      · simp only [if_neg hcond]

/-- C10 witness: with no SPY bar in either file, the benchmark return is 0. -/
theorem missing_benchmark_defaults_zero_witness :
    get_benchmark_return [sampleBar] [sampleBar] "SPY" = 0 :=
  (missing_benchmark_defaults_zero [sampleBar] [sampleBar] "SPY"
    (Or.inl (by decide))).1

theorem getD_append_length {α : Type} (l : List α) (a d : α) :
    (l ++ [a]).getD l.length d = a := by
  rw [List.getD_eq_getElem?_getD, List.getElem?_concat_length]
  rfl

theorem getD_append_lt {α : Type} (l l2 : List α) (r : ℕ) (d : α)
    (h : r < l.length) : (l ++ l2).getD r d = l.getD r d := by
  rw [List.getD_eq_getElem?_getD, List.getElem?_append_left h,
    List.getD_eq_getElem?_getD]

theorem getD_set_ne {α : Type} (l : List α) (i j : ℕ) (a d : α) (h : i ≠ j) :
    (l.set i a).getD j d = l.getD j d := by
  rw [List.getD_eq_getElem?_getD, List.getElem?_set_ne h,
    List.getD_eq_getElem?_getD]

theorem getD_set_self {α : Type} (l : List α) (i : ℕ) (a d : α)
    (h : i < l.length) : (l.set i a).getD i d = a := by
  rw [List.getD_eq_getElem?_getD, List.getElem?_set_self h]
  rfl

/-- C9 counterexample: claim C9 as stated is false on the code. With a
portfolio holding 10 shares of "A" at average cost 5, take the
`get_positions()` snapshot, look up the "A" entry in it, and mutate that
`Position` record's quantity in place to 999: the portfolio's subsequent
`get_position("A")` now reports 999 shares, because `dict.copy()` is a
shallow copy sharing the mutable `Position` objects. -/
theorem get_positions_snapshot_counterexample :
    pyGetPosition
      (pySetQuantity (pyGetPositions ⟨[⟨"A", 10, 5⟩], [[("A", 0)]]⟩ ⟨100, 0⟩).1
        ((alGet (((pyGetPositions ⟨[⟨"A", 10, 5⟩], [[("A", 0)]]⟩ ⟨100, 0⟩).1).dictAt
          (pyGetPositions ⟨[⟨"A", 10, 5⟩], [[("A", 0)]]⟩ ⟨100, 0⟩).2) "A").getD 0) 999)
      ⟨100, 0⟩ "A" ≠
    pyGetPosition ⟨[⟨"A", 10, 5⟩], [[("A", 0)]]⟩ ⟨100, 0⟩ "A" := by
  decide

/-- C9 amended: `get_positions` allocates a fresh dict object value-equal to
the canonical map (so repeated calls give value-equal snapshots), and taking
the snapshot or mutating the snapshot dict's entries leaves `get_position`
results unchanged; but the copy is shallow — the `Position` records are
shared, so in-place mutation of a record reached through the snapshot is
visible to subsequent `get_position`. -/
theorem get_positions_snapshot (s : PyState) (p : PyPortfolio)
    (hd : p.positions_ref < s.dict_heap.length) :
    ((pyGetPositions s p).1).dictValues (pyGetPositions s p).2 =
      s.dictValues p.positions_ref ∧
    (pyGetPositions s p).2 ≠ p.positions_ref ∧
    (∀ t : String, pyGetPosition (pyGetPositions s p).1 p t = pyGetPosition s p t) ∧
    (∀ t t' : String,
      pyGetPosition (pyDictPop (pyGetPositions s p).1 (pyGetPositions s p).2 t') p t =
        pyGetPosition s p t) ∧
    (∀ (t : String) (rp : ℕ) (q : ℤ),
      alGet (s.dictAt p.positions_ref) t = some rp → rp < s.pos_heap.length →
      pyGetPosition (pySetQuantity (pyGetPositions s p).1 rp q) p t =
        some { s.posAt rp with quantity := q }) := by
  have hsnap : ((pyGetPositions s p).1).dictAt (pyGetPositions s p).2 =
      s.dictAt p.positions_ref := by
    simp only [pyGetPositions, PyState.dictAt]
    exact getD_append_length _ _ _
  have hown : ((pyGetPositions s p).1).dictAt p.positions_ref =
      s.dictAt p.positions_ref := by
    simp only [pyGetPositions, PyState.dictAt]
    exact getD_append_lt _ _ _ _ hd
  refine ⟨?_, ?_, ?_, ?_, ?_⟩
  · simp only [PyState.dictValues, hsnap]
    rfl
  · exact Nat.ne_of_gt hd
  · intro t
    simp only [pyGetPosition, hown]
    rfl
  · intro t t'
    simp only [pyGetPosition, pyDictPop, PyState.dictAt, pyGetPositions]
    rw [getD_set_ne _ _ _ _ _ (Nat.ne_of_gt hd), getD_append_lt _ _ _ _ hd]
    rfl
  · intro t rp q hrp hlt
    simp only [pyGetPosition, pySetQuantity, PyState.dictAt, PyState.posAt,
      pyGetPositions]
    rw [getD_append_lt _ _ _ _ hd]
    show ((alGet (s.dictAt p.positions_ref) t).map _) = _
    rw [hrp]
    simp only [Option.map_some']
    rw [PyState.posAt]
    exact congrArg some (getD_set_self _ _ _ _ hlt)

/-- C9 amended witness: on the concrete one-position portfolio, the snapshot
is value-equal to the canonical map and popping its entry does not disturb
`get_position`. -/
theorem get_positions_snapshot_witness :
    ((pyGetPositions ⟨[⟨"A", 10, 5⟩], [[("A", 0)]]⟩ ⟨100, 0⟩).1).dictValues
        (pyGetPositions ⟨[⟨"A", 10, 5⟩], [[("A", 0)]]⟩ ⟨100, 0⟩).2 =
      PyState.dictValues ⟨[⟨"A", 10, 5⟩], [[("A", 0)]]⟩ 0 ∧
    pyGetPosition
        (pyDictPop (pyGetPositions ⟨[⟨"A", 10, 5⟩], [[("A", 0)]]⟩ ⟨100, 0⟩).1
          (pyGetPositions ⟨[⟨"A", 10, 5⟩], [[("A", 0)]]⟩ ⟨100, 0⟩).2 "A")
        ⟨100, 0⟩ "A" =
      pyGetPosition ⟨[⟨"A", 10, 5⟩], [[("A", 0)]]⟩ ⟨100, 0⟩ "A" := by
  have h := get_positions_snapshot ⟨[⟨"A", 10, 5⟩], [[("A", 0)]]⟩ ⟨100, 0⟩
    (by decide)
  exact ⟨h.1, h.2.2.2.1 "A" "A"⟩

end Backtest
